import Mathlib

/-!
Shallow embedding of `src/emubd/lfs_emubd.c` (littlefs block device emulated on
standard files) together with proofs about the specified properties.

Modelling conventions:
* machine integers (`lfs_off_t`, `lfs_size_t`, `lfs_block_t` — all 32-bit
  unsigned) are `Nat`, with the wrapping subtraction that matters
  (`emu->info.erase_size - off`) made explicit through `sub32`;
* the file store is a map from a block index to an optional artifact
  (`none` = the child file does not exist); the `"stats"`/`"info"` children are
  handled by `lfs_emubd_create` separately;
* every file-store primitive (`fopen`, `fseek`, `fread`, `fwrite`, `fclose`,
  `stat`, `unlink`) consumes one call slot and may be made to fail by a fault
  oracle, mirroring "any unexpected file-store failure"; `noFault` is the
  fault-free store.  The state tracks `calls` (number of primitive calls, so
  "performs no I/O" is provable), `opens` (currently open `FILE` handles, for
  the handle-leak property) and `errno`;
* the C loops are written with explicit fuel; a `none` result marks a run the
  C program does not complete normally (divergence or undefined behaviour,
  e.g. `fseek(NULL, ...)`).
-/

namespace LfsEmubd

/-- 2^32, the modulus of the 32-bit unsigned quantities used by the driver. -/
def U32 : Nat := 2 ^ 32

def ENOENT : Nat := 2
def EEXIST : Nat := 17
def EINVAL : Nat := 22

/-- 32-bit unsigned subtraction `a - b` as C computes it (wrapping). -/
def sub32 (a b : Nat) : Nat := (a + (U32 - b % U32)) % U32

/-- `struct lfs_bd_info`: geometry of the emulated device (all fields are
32-bit unsigned in the C source). -/
structure BdInfo where
  read_size : Nat
  prog_size : Nat
  erase_size : Nat
  total_size : Nat

/-- `struct lfs_bd_stats`: the three per-operation usage counters (32-bit
unsigned in the C source, hence bumped modulo `U32`). -/
structure BdStats where
  read_count : Nat
  prog_count : Nat
  erase_count : Nat

/-- State of the backing file store plus the observations we track:
`disk` maps a block index to its child artifact's bytes (`none` = no file),
`opens` counts the currently open `FILE` handles, `calls` counts the
file-store primitive calls performed, `errno` is the C `errno` variable. -/
structure FsState where
  disk : Nat → Option (List Nat)
  opens : Nat
  calls : Nat
  errno : Nat

/-- Fault oracle: for each primitive-call index, `some e` injects an
unexpected file-store failure with `errno = e`, `none` lets the call behave
normally. -/
def Oracle : Type := Nat → Option Nat

/-- The fault-free file store. -/
def noFault : Oracle := fun _ => none

/-- Point update of the artifact map. -/
def updateDisk (d : Nat → Option (List Nat)) (blk : Nat) (v : Option (List Nat)) :
    Nat → Option (List Nat) :=
  fun b => if b = blk then v else d b

/-- Bytes delivered by `fread(data, 1, count, f)` after `fseek(f, off)` on a
file with contents `a`, into a zero-filled buffer region: position `i` gets
byte `off+i` of the file if it exists, and stays `0` past end-of-file. -/
def readSlice (a : List Nat) (off count : Nat) : List Nat :=
  (List.range count).map fun i => a.getD (off + i) 0

/-- Contents of a file `a` after `fseek` to `off` and `fwrite` of `d`:
bytes `[off, off + d.length)` become `d`, a gap between the old end of file
and `off` reads as zeros, everything else is untouched.  `fwrite` of zero
bytes changes nothing (it does not extend the file). -/
def writeAt (a : List Nat) (off : Nat) (d : List Nat) : List Nat :=
  if d.isEmpty then a
  else
    (List.range (max a.length (off + d.length))).map fun i =>
      if i < off then a.getD i 0
      else if i < off + d.length then d.getD (i - off) 0
      else a.getD i 0

/-! ### File-store primitives -/

/-- `fopen(path, "rb")` on block `blk`'s child: `some a` = handle opened on
contents `a`; `none` = failure, with `errno` set (naturally `ENOENT` when the
file does not exist, or whatever the fault oracle injects). -/
def fopenRead (orc : Oracle) (st : FsState) (blk : Nat) :
    FsState × Option (List Nat) :=
  match orc st.calls with
  | some e => ({ st with calls := st.calls + 1, errno := e }, none)
  | none =>
    match st.disk blk with
    | none => ({ st with calls := st.calls + 1, errno := ENOENT }, none)
    | some a => ({ st with calls := st.calls + 1, opens := st.opens + 1 }, some a)

/-- `fopen(path, "r+b")` (open existing file for in-place update). -/
def fopenUpdate (orc : Oracle) (st : FsState) (blk : Nat) :
    FsState × Option (List Nat) :=
  match orc st.calls with
  | some e => ({ st with calls := st.calls + 1, errno := e }, none)
  | none =>
    match st.disk blk with
    | none => ({ st with calls := st.calls + 1, errno := ENOENT }, none)
    | some a => ({ st with calls := st.calls + 1, opens := st.opens + 1 }, some a)

/-- `fopen(path, "w+b")` (create, truncating to empty). -/
def fopenCreate (orc : Oracle) (st : FsState) (blk : Nat) :
    FsState × Option (List Nat) :=
  match orc st.calls with
  | some e => ({ st with calls := st.calls + 1, errno := e }, none)
  | none =>
    ({ st with calls := st.calls + 1, opens := st.opens + 1,
               disk := updateDisk st.disk blk (some []) }, some [])

/-- `fseek(f, off, SEEK_SET)`: `false` = unexpected failure (oracle). -/
def fseekCall (orc : Oracle) (st : FsState) : FsState × Bool :=
  match orc st.calls with
  | some e => ({ st with calls := st.calls + 1, errno := e }, false)
  | none => ({ st with calls := st.calls + 1 }, true)

/-- `fread(data, 1, count, f)`: `false` = short read not explained by
end-of-file (`res < count && !feof(f)`), i.e. an injected fault; the bytes
actually delivered are computed at the call site via `readSlice`. -/
def freadCall (orc : Oracle) (st : FsState) : FsState × Bool :=
  match orc st.calls with
  | some e => ({ st with calls := st.calls + 1, errno := e }, false)
  | none => ({ st with calls := st.calls + 1 }, true)

/-- `fwrite(data, 1, count, f)` on block `blk`'s child whose new whole
contents would be `newContent`: on success the file is updated. -/
def fwriteCall (orc : Oracle) (st : FsState) (blk : Nat) (newContent : List Nat) :
    FsState × Bool :=
  match orc st.calls with
  | some e => ({ st with calls := st.calls + 1, errno := e }, false)
  | none =>
    ({ st with calls := st.calls + 1,
               disk := updateDisk st.disk blk (some newContent) }, true)

/-- `fclose(f)`: the handle is deallocated even when `fclose` reports an
error, so `opens` always drops by one. -/
def fcloseCall (orc : Oracle) (st : FsState) : FsState × Bool :=
  match orc st.calls with
  | some e => ({ st with calls := st.calls + 1, opens := st.opens - 1, errno := e }, false)
  | none => ({ st with calls := st.calls + 1, opens := st.opens - 1 }, true)

/-- Result of `stat(path, &st)` as the erase loop consumes it: `present` =
a regular file exists, `absent` = `err && errno == ENOENT`, `failed e` =
`err && errno != ENOENT`. -/
inductive StatRes where
  | present
  | absent
  | failed (e : Nat)

def statCall (orc : Oracle) (st : FsState) (blk : Nat) : FsState × StatRes :=
  match orc st.calls with
  | some e =>
    if e = ENOENT then ({ st with calls := st.calls + 1, errno := e }, StatRes.absent)
    else ({ st with calls := st.calls + 1, errno := e }, StatRes.failed e)
  | none =>
    match st.disk blk with
    | some _ => ({ st with calls := st.calls + 1 }, StatRes.present)
    | none => ({ st with calls := st.calls + 1, errno := ENOENT }, StatRes.absent)

/-- `unlink(path)` on block `blk`'s child. -/
def unlinkCall (orc : Oracle) (st : FsState) (blk : Nat) : FsState × Bool :=
  match orc st.calls with
  | some e => ({ st with calls := st.calls + 1, errno := e }, false)
  | none => ({ st with calls := st.calls + 1, disk := updateDisk st.disk blk none }, true)

/-! ### The three operations (`lfs_emubd_read` / `_prog` / `_erase`) -/

/-- Validity check of `lfs_emubd_read` (lines 79–82 of the source):
`off % read_size == 0 && size % read_size == 0 &&
(uint64_t)block*erase_size + off + size < total_size`
(the 64-bit sum cannot overflow for 32-bit inputs, so plain `Nat` is exact). -/
def readValid (info : BdInfo) (block off size : Nat) : Prop :=
  off % info.read_size = 0 ∧ size % info.read_size = 0 ∧
    block * info.erase_size + off + size < info.total_size

instance readValid.dec (info : BdInfo) (block off size : Nat) :
    Decidable (readValid info block off size) := by
  unfold readValid; infer_instance

/-- Validity check of `lfs_emubd_prog` (lines 131–134). -/
def progValid (info : BdInfo) (block off size : Nat) : Prop :=
  off % info.prog_size = 0 ∧ size % info.prog_size = 0 ∧
    block * info.erase_size + off + size < info.total_size

instance progValid.dec (info : BdInfo) (block off size : Nat) :
    Decidable (progValid info block off size) := by
  unfold progValid; infer_instance

/-- Validity check of `lfs_emubd_erase` (lines 180–183). -/
def eraseValid (info : BdInfo) (block off size : Nat) : Prop :=
  off % info.erase_size = 0 ∧ size % info.erase_size = 0 ∧
    block * info.erase_size + off + size < info.total_size

instance eraseValid.dec (info : BdInfo) (block off size : Nat) :
    Decidable (eraseValid info block off size) := by
  unfold eraseValid; infer_instance

/-- The `while (size > 0)` walk of `lfs_emubd_read` (lines 90–120).  `acc` is
the already-filled (zero-initialised) prefix of the caller's buffer.  The C
loop has no fuel; `none` marks a run the C code does not complete (only
reachable with `erase_size = 0`). -/
def readLoop (orc : Oracle) (info : BdInfo) :
    Nat → FsState → Nat → Nat → Nat → List Nat →
      FsState × Option (Except Nat (List Nat))
  | 0, st, _, _, _, _ => (st, none)
  | fuel + 1, st, block, off, size, acc =>
    if size = 0 then (st, some (Except.ok acc))
    else
      let count := min (sub32 info.erase_size off) size
      match fopenRead orc st block with
      | (st1, none) =>
        if st1.errno = ENOENT then
          readLoop orc info fuel st1 (block + 1) 0 (size - count)
            (acc ++ List.replicate count 0)
        else (st1, some (Except.error st1.errno))
      | (st1, some a) =>
        match fseekCall orc st1 with
        | (st2, false) => (st2, some (Except.error st2.errno))
        | (st2, true) =>
          match freadCall orc st2 with
          | (st3, false) => (st3, some (Except.error st3.errno))
          | (st3, true) =>
            match fcloseCall orc st3 with
            | (st4, false) => (st4, some (Except.error st4.errno))
            | (st4, true) =>
              readLoop orc info fuel st4 (block + 1) 0 (size - count)
                (acc ++ readSlice a off count)

/-- `lfs_emubd_read` (lines 74–124).  Returns the final file-store state, the
updated stats, and `some (ok bytes)` on success / `some (error e)` when the C
function returns `-e` / `none` when the C run does not complete. -/
def lfs_emubd_read (orc : Oracle) (info : BdInfo) (stats : BdStats) (st : FsState)
    (block off size : Nat) :
    FsState × BdStats × Option (Except Nat (List Nat)) :=
  if readValid info block off size then
    match readLoop orc info (size + 2) st block off size [] with
    | (st', some (Except.ok out)) =>
      (st', { stats with read_count := (stats.read_count + 1) % U32 },
        some (Except.ok out))
    | (st', r) => (st', stats, r)
  else (st, stats, some (Except.error EINVAL))

/-- Outcome of the open-or-create sequence at the top of the prog loop
(lines 143–149): `opened a` = handle on current contents `a`; `failed e` =
the fallback `fopen(path, "w+b")` failed; `undef` = the first `fopen` failed
with `errno != ENOENT`, after which the C code calls `fseek(f=NULL, ...)` —
undefined behaviour. -/
inductive OpenRes where
  | undef
  | failed (e : Nat)
  | opened (a : List Nat)

def progOpen (orc : Oracle) (st : FsState) (blk : Nat) : FsState × OpenRes :=
  match fopenUpdate orc st blk with
  | (st1, some a) => (st1, OpenRes.opened a)
  | (st1, none) =>
    if st1.errno = ENOENT then
      match fopenCreate orc st1 blk with
      | (st2, none) => (st2, OpenRes.failed st2.errno)
      | (st2, some a) => (st2, OpenRes.opened a)
    else (st1, OpenRes.undef)

/-- The `while (size > 0)` walk of `lfs_emubd_prog` (lines 139–170). -/
def progLoop (orc : Oracle) (info : BdInfo) :
    Nat → FsState → Nat → Nat → Nat → List Nat →
      FsState × Option (Except Nat Unit)
  | 0, st, _, _, _, _ => (st, none)
  | fuel + 1, st, block, off, size, data =>
    if size = 0 then (st, some (Except.ok ()))
    else
      let count := min (sub32 info.erase_size off) size
      match progOpen orc st block with
      | (st1, OpenRes.undef) => (st1, none)
      | (st1, OpenRes.failed e) => (st1, some (Except.error e))
      | (st1, OpenRes.opened a) =>
        match fseekCall orc st1 with
        | (st2, false) => (st2, some (Except.error st2.errno))
        | (st2, true) =>
          match fwriteCall orc st2 block (writeAt a off (data.take count)) with
          | (st3, false) => (st3, some (Except.error st3.errno))
          | (st3, true) =>
            match fcloseCall orc st3 with
            | (st4, false) => (st4, some (Except.error st4.errno))
            | (st4, true) =>
              progLoop orc info fuel st4 (block + 1) 0 (size - count)
                (data.drop count)

/-- `lfs_emubd_prog` (lines 126–174). -/
def lfs_emubd_prog (orc : Oracle) (info : BdInfo) (stats : BdStats) (st : FsState)
    (block off size : Nat) (data : List Nat) :
    FsState × BdStats × Option (Except Nat Unit) :=
  if progValid info block off size then
    match progLoop orc info (size + 2) st block off size data with
    | (st', some (Except.ok _)) =>
      (st', { stats with prog_count := (stats.prog_count + 1) % U32 },
        some (Except.ok ()))
    | (st', r) => (st', stats, r)
  else (st, stats, some (Except.error EINVAL))

/-- The `while (size > 0)` walk of `lfs_emubd_erase` (lines 188–206).  Note
the loop unlinks children starting at the *passed* `block` index and ignores
`off` entirely (beyond validation); `size -= erase_size` is the C unsigned
subtraction. -/
def eraseLoop (orc : Oracle) (info : BdInfo) :
    Nat → FsState → Nat → Nat → FsState × Option (Except Nat Unit)
  | 0, st, _, _ => (st, none)
  | fuel + 1, st, block, size =>
    if size = 0 then (st, some (Except.ok ()))
    else
      match statCall orc st block with
      | (st1, StatRes.failed e) => (st1, some (Except.error e))
      | (st1, StatRes.absent) =>
        eraseLoop orc info fuel st1 (block + 1) (sub32 size info.erase_size)
      | (st1, StatRes.present) =>
        match unlinkCall orc st1 block with
        | (st2, false) => (st2, some (Except.error st2.errno))
        | (st2, true) =>
          eraseLoop orc info fuel st2 (block + 1) (sub32 size info.erase_size)

/-- `lfs_emubd_erase` (lines 176–210). -/
def lfs_emubd_erase (orc : Oracle) (info : BdInfo) (stats : BdStats) (st : FsState)
    (block off size : Nat) :
    FsState × BdStats × Option (Except Nat Unit) :=
  if eraseValid info block off size then
    match eraseLoop orc info (size + 2) st block size with
    | (st', some (Except.ok _)) =>
      (st', { stats with erase_count := (stats.erase_count + 1) % U32 },
        some (Except.ok ()))
    | (st', r) => (st', stats, r)
  else (st, stats, some (Except.error EINVAL))

/-! ### `lfs_emubd_create` (lines 20–66) -/

/-- Modelled from the spec: the byte size of the persisted `UsageStatistics`
record (`sizeof(emu->stats)`); `struct lfs_bd_stats` lives in the missing
header `emubd/lfs_emubd.h` and holds the three 32-bit counters in the
implementation's native fixed layout, so 12 bytes. -/
def statsSize : Nat := 12

/-- Little-endian value of a list of bytes (head = least significant). -/
def leNat (bs : List Nat) : Nat := bs.foldr (fun b acc => b + 256 * acc) 0

/-- Modelled from the spec: decoding of the fixed-size binary image of
`UsageStatistics` (three consecutive 4-byte little-endian counters). -/
def decodeStats (bs : List Nat) : BdStats :=
  { read_count := leNat ((bs.take 4))
    prog_count := leNat ((bs.drop 4).take 4)
    erase_count := leNat ((bs.drop 8).take 4) }

/-- `lfs_emubd_create` (lines 20–66), fault-free file store, allocation
assumed to succeed.  `dirExists` says whether the base directory already
exists (`mkdir` then fails with `EEXIST`, which is tolerated but leaves
`errno = EEXIST`); `statsFile` is the `"stats"` child's contents; `e0` is the
value of `errno` on entry.  `emu->stats` is zero-initialised, so a short
`fread` that the C code fails to reject (possible only when `errno` happens
to be `0`) would leave the read prefix padded with zeros. -/
def lfs_emubd_create (cfg : BdInfo) (dirExists : Bool)
    (statsFile : Option (List Nat)) (e0 : Nat) : Except Nat (BdInfo × BdStats) :=
  let e1 : Nat := if dirExists then EEXIST else e0
  match statsFile with
  | none => Except.error ENOENT
  | some bs =>
    if statsSize ≤ bs.length then Except.ok (cfg, decodeStats bs)
    else if e1 = 0 then
      Except.ok (cfg, decodeStats (bs ++ List.replicate (statsSize - bs.length) 0))
    else Except.error e1

/-- The bytes a fault-free read of `size` bytes starting at `(block, off)`
delivers when `off < erase_size` (`es`): byte `i` comes from position
`(off + i) % es` of the artifact of block `block + (off + i) / es`, and is 0
wherever that artifact is absent or too short. -/
def readGold (disk : Nat → Option (List Nat)) (es block off size : Nat) : List Nat :=
  (List.range size).map fun i =>
    ((disk (block + (off + i) / es)).getD []).getD ((off + i) % es) 0

/-! ### Concrete fixtures (the spec's scenario geometry: 16/16/512/2048) -/

def info0 : BdInfo := ⟨16, 16, 512, 2048⟩

def stats0 : BdStats := ⟨0, 0, 0⟩

/-- Empty file store: no block artifact exists. -/
def st0 : FsState := ⟨fun _ => none, 0, 0, 0⟩

/-- File store in which blocks 0 and 1 have (short) artifacts `[1]` and `[2]`. -/
def stAB : FsState :=
  ⟨fun b => if b = 0 then some [1] else if b = 1 then some [2] else none, 0, 0, 0⟩

/-- Oracle that makes the second file-store primitive call fail with
`errno = 5` (`EIO`): during a walk step on an existing block this is the
`fseek` right after a successful `fopen`. -/
def orcSeekFault : Oracle := fun i => if i = 1 then some 5 else none

/-- Oracle that makes the first file-store primitive call fail with
`errno = 13` (`EACCES`): the `fopen(path, "r+b")` of the first block. -/
def orcOpenFault : Oracle := fun i => if i = 0 then some 13 else none

/-! ### Basic arithmetic and list lemmas -/

theorem U32_pos : 0 < U32 := by unfold U32; positivity

theorem sub32_of_le {a b : Nat} (h : b ≤ a) (ha : a < U32) : sub32 a b = a - b := by
  have hb : b % U32 = b := Nat.mod_eq_of_lt (lt_of_le_of_lt h ha)
  unfold sub32
  rw [hb]
  have h1 : a + (U32 - b) = U32 + (a - b) := by omega
  rw [h1, Nat.add_mod_left, Nat.mod_eq_of_lt (by omega)]

theorem sub32_of_lt {a b : Nat} (h : a < b) (hb : b < U32) : sub32 a b = U32 - (b - a) := by
  have hbm : b % U32 = b := Nat.mod_eq_of_lt hb
  unfold sub32
  rw [hbm, Nat.mod_eq_of_lt (by omega)]
  omega

theorem sub32_zero {a : Nat} (ha : a < U32) : sub32 a 0 = a := by
  rw [sub32_of_le (Nat.zero_le a) ha]; omega

theorem sub32_self {a : Nat} (ha : a < U32) : sub32 a a = 0 := by
  rw [sub32_of_le (le_refl a) ha]; omega

theorem getD_map_range (f : Nat → Nat) (n j : Nat) :
    ((List.range n).map f).getD j 0 = if j < n then f j else 0 := by
  by_cases h : j < n
  · rw [List.getD_eq_getElem _ _ (by simpa using h)]
    simp [h]
  · rw [List.getD_eq_default _ _ (by simpa using Nat.le_of_not_lt h)]
    simp [h]

@[simp] theorem length_readSlice (a : List Nat) (off count : Nat) :
    (readSlice a off count).length = count := by
  simp [readSlice]

theorem getD_readSlice (a : List Nat) (off count j : Nat) :
    (readSlice a off count).getD j 0 = if j < count then a.getD (off + j) 0 else 0 := by
  unfold readSlice
  exact getD_map_range _ count j

theorem readSlice_nil (off count : Nat) :
    readSlice [] off count = List.replicate count 0 := by
  apply List.ext_getElem (by simp)
  intro i h1 h2
  simp [readSlice]

theorem writeAt_of_ne_nil (a : List Nat) (off : Nat) (d : List Nat) (hd : d ≠ []) :
    writeAt a off d =
      (List.range (max a.length (off + d.length))).map (fun i =>
        if i < off then a.getD i 0
        else if i < off + d.length then d.getD (i - off) 0
        else a.getD i 0) := by
  rw [writeAt, if_neg (by simpa [List.isEmpty_iff] using hd)]

theorem length_writeAt (a : List Nat) (off : Nat) (d : List Nat) (hd : d ≠ []) :
    (writeAt a off d).length = max a.length (off + d.length) := by
  rw [writeAt_of_ne_nil a off d hd]
  simp

theorem getD_writeAt_in (a : List Nat) (off : Nat) (d : List Nat) (i : Nat)
    (h : i < d.length) : (writeAt a off d).getD (off + i) 0 = d.getD i 0 := by
  have hd : d ≠ [] := by intro he; subst he; simp at h
  rw [writeAt_of_ne_nil a off d hd, getD_map_range]
  rw [if_pos (by omega), if_neg (by omega), if_pos (by omega)]
  congr 1
  omega

theorem getD_writeAt_out (a : List Nat) (off : Nat) (d : List Nat) (i : Nat)
    (h : i < off ∨ off + d.length ≤ i) : (writeAt a off d).getD i 0 = a.getD i 0 := by
  by_cases hd : d = []
  · subst hd
    rw [writeAt, if_pos (by simp)]
  · rw [writeAt_of_ne_nil a off d hd, getD_map_range]
    by_cases h1 : i < max a.length (off + d.length)
    · rw [if_pos h1]
      rcases h with h | h
      · rw [if_pos h]
      · rw [if_neg (by omega), if_neg (by omega)]
    · rw [if_neg h1, List.getD_eq_default _ _ (by omega)]

theorem readSlice_zero (a : List Nat) (off : Nat) : readSlice a off 0 = [] := rfl

theorem writeAt_nil (a : List Nat) (off : Nat) : writeAt a off [] = a := by
  simp [writeAt]

theorem readSlice_writeAt (a : List Nat) (off : Nat) (d : List Nat) :
    readSlice (writeAt a off d) off d.length = d := by
  apply List.ext_getElem (by simp)
  intro i h1 h2
  have h3 : i < d.length := by simpa using h1
  calc (readSlice (writeAt a off d) off d.length)[i]
      = (readSlice (writeAt a off d) off d.length).getD i 0 :=
        (List.getD_eq_getElem _ _ h1).symm
    _ = (writeAt a off d).getD (off + i) 0 := by
        rw [getD_readSlice]; simp [h3]
    _ = d.getD i 0 := getD_writeAt_in a off d i h3
    _ = d[i] := List.getD_eq_getElem _ _ h3

@[simp] theorem updateDisk_same (d : Nat → Option (List Nat)) (blk : Nat)
    (v : Option (List Nat)) : updateDisk d blk v blk = v := by
  simp [updateDisk]

theorem updateDisk_other (d : Nat → Option (List Nat)) (blk b : Nat)
    (v : Option (List Nat)) (h : b ≠ blk) : updateDisk d blk v b = d b := by
  simp [updateDisk, h]

/-! ### Evaluation lemmas for the fault-free primitives -/

theorem fopenRead_noFault_none {st : FsState} {blk : Nat} (h : st.disk blk = none) :
    fopenRead noFault st blk =
      ({ st with calls := st.calls + 1, errno := ENOENT }, none) := by
  simp [fopenRead, noFault, h]

theorem fopenRead_noFault_some {st : FsState} {blk : Nat} {a : List Nat}
    (h : st.disk blk = some a) :
    fopenRead noFault st blk =
      ({ st with calls := st.calls + 1, opens := st.opens + 1 }, some a) := by
  simp [fopenRead, noFault, h]

theorem fseekCall_noFault (st : FsState) :
    fseekCall noFault st = ({ st with calls := st.calls + 1 }, true) := rfl

theorem freadCall_noFault (st : FsState) :
    freadCall noFault st = ({ st with calls := st.calls + 1 }, true) := rfl

theorem fcloseCall_noFault (st : FsState) :
    fcloseCall noFault st =
      ({ st with calls := st.calls + 1, opens := st.opens - 1 }, true) := rfl

theorem fwriteCall_noFault (st : FsState) (blk : Nat) (c : List Nat) :
    fwriteCall noFault st blk c =
      ({ st with calls := st.calls + 1,
                 disk := updateDisk st.disk blk (some c) }, true) := rfl

theorem statCall_noFault_present {st : FsState} {blk : Nat} {a : List Nat}
    (h : st.disk blk = some a) :
    statCall noFault st blk = ({ st with calls := st.calls + 1 }, StatRes.present) := by
  simp [statCall, noFault, h]

theorem statCall_noFault_absent {st : FsState} {blk : Nat} (h : st.disk blk = none) :
    statCall noFault st blk =
      ({ st with calls := st.calls + 1, errno := ENOENT }, StatRes.absent) := by
  simp [statCall, noFault, h]

theorem unlinkCall_noFault (st : FsState) (blk : Nat) :
    unlinkCall noFault st blk =
      ({ st with calls := st.calls + 1, disk := updateDisk st.disk blk none }, true) := rfl

theorem progOpen_noFault_some {st : FsState} {blk : Nat} {a : List Nat}
    (h : st.disk blk = some a) :
    progOpen noFault st blk =
      ({ st with calls := st.calls + 1, opens := st.opens + 1 }, OpenRes.opened a) := by
  simp [progOpen, fopenUpdate, fopenCreate, noFault, h]

theorem progOpen_noFault_none {st : FsState} {blk : Nat} (h : st.disk blk = none) :
    progOpen noFault st blk =
      ({ st with calls := st.calls + 1 + 1, opens := st.opens + 1, errno := ENOENT,
                 disk := updateDisk st.disk blk (some []) }, OpenRes.opened []) := by
  simp [progOpen, fopenUpdate, fopenCreate, noFault, h, ENOENT]

/-! ### Claim C2 -/

/-- C2: a read, program, or erase call whose offset or size is not a multiple
of the operation's granularity, or whose end address `block*erase_size + off +
size` reaches or exceeds `total_size` (`¬(… < total_size)`, so an end address
equal to `total_size` is rejected), returns `EINVAL` before performing any
file-store I/O — the file-store state (artifacts, call count, open handles,
errno) and all three usage counters are returned unchanged, under any fault
oracle. -/
theorem C2_invalid_args_rejected_without_io (orc : Oracle) (info : BdInfo)
    (stats : BdStats) (st : FsState) (bR oR sR bP oP sP bE oE sE : Nat)
    (data : List Nat)
    (hR : ¬ readValid info bR oR sR) (hP : ¬ progValid info bP oP sP)
    (hE : ¬ eraseValid info bE oE sE) :
    lfs_emubd_read orc info stats st bR oR sR =
      (st, stats, some (Except.error EINVAL)) ∧
    lfs_emubd_prog orc info stats st bP oP sP data =
      (st, stats, some (Except.error EINVAL)) ∧
    lfs_emubd_erase orc info stats st bE oE sE =
      (st, stats, some (Except.error EINVAL)) := by
  refine ⟨?_, ?_, ?_⟩
  · simp [lfs_emubd_read, hR]
  · simp [lfs_emubd_prog, hP]
  · simp [lfs_emubd_erase, hE]

/-- Witness for C2: with geometry 16/16/512/2048, `read(0, 1, 16)` is
misaligned, `prog(3, 496, 16)` has end address exactly `total_size = 2048`,
and `erase(0, 16, 512)` has a non-block-aligned offset; all three are
rejected with `EINVAL` and no state change. -/
theorem C2_invalid_args_rejected_without_io_witness :
    (¬ readValid info0 0 1 16) ∧ (¬ progValid info0 3 496 16) ∧
    (¬ eraseValid info0 0 16 512) ∧
    (lfs_emubd_read noFault info0 stats0 st0 0 1 16 =
        (st0, stats0, some (Except.error EINVAL)) ∧
      lfs_emubd_prog noFault info0 stats0 st0 3 496 16 [] =
        (st0, stats0, some (Except.error EINVAL)) ∧
      lfs_emubd_erase noFault info0 stats0 st0 0 16 512 =
        (st0, stats0, some (Except.error EINVAL))) :=
  ⟨by decide, by decide, by decide,
    C2_invalid_args_rejected_without_io noFault info0 stats0 st0 0 1 16 3 496 16
      0 16 512 [] (by decide) (by decide) (by decide)⟩

/-! ### Claim C10 -/

/-- C10: a size-0 read, program, or erase whose offset passes the alignment
and bounds checks performs no file-store I/O at all (the returned file-store
state is the input state: no primitive call, no artifact change, no handle),
returns success, and still bumps the corresponding counter by exactly 1
(as the 32-bit counter it is), under any fault oracle. -/
theorem C10_size_zero_success_no_io (orc : Oracle) (info : BdInfo)
    (stats : BdStats) (st : FsState) (block off : Nat) (data : List Nat)
    (hR : readValid info block off 0) (hP : progValid info block off 0)
    (hE : eraseValid info block off 0) :
    lfs_emubd_read orc info stats st block off 0 =
      (st, { stats with read_count := (stats.read_count + 1) % U32 },
        some (Except.ok [])) ∧
    lfs_emubd_prog orc info stats st block off 0 data =
      (st, { stats with prog_count := (stats.prog_count + 1) % U32 },
        some (Except.ok ())) ∧
    lfs_emubd_erase orc info stats st block off 0 =
      (st, { stats with erase_count := (stats.erase_count + 1) % U32 },
        some (Except.ok ())) := by
  refine ⟨?_, ?_, ?_⟩
  · simp [lfs_emubd_read, hR, readLoop]
  · simp [lfs_emubd_prog, hP, progLoop]
  · simp [lfs_emubd_erase, hE, eraseLoop]

/-- Witness for C10 at block 1, offset 0, size 0 of the 16/16/512/2048
geometry, on a store holding two artifacts. -/
theorem C10_size_zero_success_no_io_witness :
    readValid info0 1 0 0 ∧ progValid info0 1 0 0 ∧ eraseValid info0 1 0 0 ∧
    lfs_emubd_read noFault info0 stats0 stAB 1 0 0 =
      (stAB, { stats0 with read_count := (stats0.read_count + 1) % U32 },
        some (Except.ok [])) :=
  ⟨by decide, by decide, by decide,
    (C10_size_zero_success_no_io noFault info0 stats0 stAB 1 0 [] (by decide)
      (by decide) (by decide)).1⟩

/-! ### Claim C4 -/

/-- C4: for any call (any arguments, any fault oracle), a successful read /
program / erase returns the stats with exactly its own counter bumped by 1
(as the 32-bit counter it is) and the other two untouched, while any call
that does not return success (invalid-argument rejection, an I/O error, or a
run the C code does not complete) returns the stats unchanged. -/
theorem C4_counter_discipline (orc : Oracle) (info : BdInfo) (stats : BdStats)
    (st : FsState) (block off size : Nat) (data : List Nat) :
    ((lfs_emubd_read orc info stats st block off size).2.1 =
      match (lfs_emubd_read orc info stats st block off size).2.2 with
      | some (Except.ok _) =>
        { stats with read_count := (stats.read_count + 1) % U32 }
      | _ => stats) ∧
    ((lfs_emubd_prog orc info stats st block off size data).2.1 =
      match (lfs_emubd_prog orc info stats st block off size data).2.2 with
      | some (Except.ok _) =>
        { stats with prog_count := (stats.prog_count + 1) % U32 }
      | _ => stats) ∧
    ((lfs_emubd_erase orc info stats st block off size).2.1 =
      match (lfs_emubd_erase orc info stats st block off size).2.2 with
      | some (Except.ok _) =>
        { stats with erase_count := (stats.erase_count + 1) % U32 }
      | _ => stats) := by
  refine ⟨?_, ?_, ?_⟩
  · by_cases h : readValid info block off size
    · rcases hl : readLoop orc info (size + 2) st block off size [] with ⟨st', r⟩
      rcases r with _ | r
      · simp [lfs_emubd_read, h, hl]
      · rcases r with e | out <;> simp [lfs_emubd_read, h, hl]
    · simp [lfs_emubd_read, h]
  · by_cases h : progValid info block off size
    · rcases hl : progLoop orc info (size + 2) st block off size data with ⟨st', r⟩
      rcases r with _ | r
      · simp [lfs_emubd_prog, h, hl]
      · rcases r with e | u <;> simp [lfs_emubd_prog, h, hl]
    · simp [lfs_emubd_prog, h]
  · by_cases h : eraseValid info block off size
    · rcases hl : eraseLoop orc info (size + 2) st block size with ⟨st', r⟩
      rcases r with _ | r
      · simp [lfs_emubd_erase, h, hl]
      · rcases r with e | u <;> simp [lfs_emubd_erase, h, hl]
    · simp [lfs_emubd_erase, h]

/-! ### Claim C5 -/

/-- Characterisation of the fault-free erase walk: it returns success and
unlinks exactly the `size / erase_size` consecutive blocks starting at the
block index it was *passed* (absent artifacts are skipped without error). -/
theorem eraseLoop_noFault_char (info : BdInfo) (hes : 0 < info.erase_size)
    (hesU : info.erase_size < U32) :
    ∀ fuel st block size, size < U32 → info.erase_size ∣ size →
      size / info.erase_size < fuel →
      ∃ st', eraseLoop noFault info fuel st block size =
          (st', some (Except.ok ())) ∧
        (∀ b, st'.disk b =
          if block ≤ b ∧ b < block + size / info.erase_size then none
          else st.disk b) ∧
        st'.opens = st.opens := by
  intro fuel
  induction fuel with
  | zero => intro st block size _ _ h; exact absurd h (Nat.not_lt_zero _)
  | succ fuel ih =>
    intro st block size hU hdvd hfuel
    by_cases hz : size = 0
    · subst hz
      exact ⟨st, by simp [eraseLoop],
        fun b => by rw [if_neg (by rw [Nat.zero_div]; omega)], rfl⟩
    · obtain ⟨k, hk⟩ := hdvd
      have hkpos : 0 < k := by
        rcases Nat.eq_zero_or_pos k with h0 | h0
        · subst h0; simp at hk; omega
        · exact h0
      obtain ⟨k', rfl⟩ : ∃ k', k = k' + 1 := ⟨k - 1, by omega⟩
      have hmul : size = info.erase_size * k' + info.erase_size := by
        rw [hk, Nat.mul_succ]
      have hdiv : size / info.erase_size = k' + 1 := by
        rw [hk]; exact Nat.mul_div_cancel_left _ hes
      have hsub : sub32 size info.erase_size = size - info.erase_size :=
        sub32_of_le (by omega) hU
      have hsub' : size - info.erase_size = info.erase_size * k' := by omega
      have hdiv' : (size - info.erase_size) / info.erase_size = k' := by
        rw [hsub']; exact Nat.mul_div_cancel_left _ hes
      cases hb : st.disk block with
      | some a =>
        obtain ⟨st', hloop, hdisk, hopens⟩ :=
          ih { st with calls := st.calls + 1 + 1,
                       disk := updateDisk st.disk block none }
            (block + 1) (size - info.erase_size) (by omega)
            (⟨k', hsub'⟩) (by omega)
        refine ⟨st', ?_, ?_, by simpa using hopens⟩
        · simp [eraseLoop, hz, statCall_noFault_present hb, unlinkCall_noFault,
            hsub, hloop]
        · intro b
          have hd2 : st'.disk b =
              if block + 1 ≤ b ∧ b < block + 1 + k' then none
              else updateDisk st.disk block none b := by
            rw [hdisk b, hdiv']
          rw [hd2, hdiv]
          by_cases hbb : b = block
          · subst hbb
            rw [if_neg (by omega), updateDisk_same, if_pos (by omega)]
          · rw [updateDisk_other _ _ _ _ hbb]
            by_cases hc : block + 1 ≤ b ∧ b < block + 1 + k'
            · rw [if_pos hc, if_pos (by omega)]
            · rw [if_neg hc, if_neg (by omega)]
      | none =>
        obtain ⟨st', hloop, hdisk, hopens⟩ :=
          ih { st with calls := st.calls + 1, errno := ENOENT }
            (block + 1) (size - info.erase_size) (by omega)
            (⟨k', hsub'⟩) (by omega)
        refine ⟨st', ?_, ?_, by simpa using hopens⟩
        · simp [eraseLoop, hz, statCall_noFault_absent hb, hsub, hloop]
        · intro b
          have hd2 : st'.disk b =
              if block + 1 ≤ b ∧ b < block + 1 + k' then none
              else st.disk b := by
            rw [hdisk b, hdiv']
          rw [hd2, hdiv]
          by_cases hbb : b = block
          · subst hbb
            rw [if_neg (by omega), if_pos (by omega)]
            exact hb
          · by_cases hc : block + 1 ≤ b ∧ b < block + 1 + k'
            · rw [if_pos hc, if_pos (by omega)]
            · rw [if_neg hc, if_neg (by omega)]

/-- C5 counterexample: geometry 16/16/512/2048, store with artifacts at
blocks 0 (`[1]`) and 1 (`[2]`), call `erase(block=0, off=512, size=512)`.
The requested address range `[0*512+512, 0*512+512+512) = [512, 1024)`
covers exactly block 1, so the claim requires block 1's artifact deleted and
block 0's kept; the code walks from the passed block index, ignoring the
offset, and does the opposite. -/
theorem C5_claim_counterexample :
    ¬ (((lfs_emubd_erase noFault info0 stats0 stAB 0 512 512).1.disk 1 = none) ∧
       ((lfs_emubd_erase noFault info0 stats0 stAB 0 512 512).1.disk 0 =
         some [1])) := by
  decide

/-- C5 (amended): a valid fault-free `erase(block, off, size)` succeeds,
treats absent artifacts as already erased, and deletes exactly the artifacts
of the `size / erase_size` consecutive blocks starting at the *passed* block
index — the offset plays no role in selecting the blocks beyond the validity
check — leaving every other block's artifact unchanged. -/
theorem C5_erase_deletes_walked_blocks (info : BdInfo) (stats : BdStats)
    (st : FsState) (block off size : Nat) (hes : 0 < info.erase_size)
    (hesU : info.erase_size < U32) (htot : info.total_size ≤ U32)
    (hv : eraseValid info block off size) :
    ∃ st', lfs_emubd_erase noFault info stats st block off size =
        (st', { stats with erase_count := (stats.erase_count + 1) % U32 },
          some (Except.ok ())) ∧
      ∀ b, st'.disk b =
        if block ≤ b ∧ b < block + size / info.erase_size then none
        else st.disk b := by
  obtain ⟨ho, hs, hb⟩ := hv
  have hdvd : info.erase_size ∣ size := Nat.dvd_of_mod_eq_zero hs
  have hU : size < U32 := by omega
  have hfuel : size / info.erase_size < size + 2 :=
    lt_of_le_of_lt (Nat.div_le_self _ _) (by omega)
  obtain ⟨st', hloop, hdisk, _⟩ :=
    eraseLoop_noFault_char info hes hesU (size + 2) st block size hU hdvd hfuel
  refine ⟨st', ?_, hdisk⟩
  have hv' : eraseValid info block off size := ⟨ho, hs, hb⟩
  simp [lfs_emubd_erase, hv', hloop]

/-- Witness for C5 (amended): erasing one block at `(block=1, off=0,
size=512)` of the two-artifact store deletes exactly block 1's artifact. -/
theorem C5_erase_deletes_walked_blocks_witness :
    0 < info0.erase_size ∧ info0.erase_size < U32 ∧ info0.total_size ≤ U32 ∧
    eraseValid info0 1 0 512 ∧
    ∃ st', lfs_emubd_erase noFault info0 stats0 stAB 1 0 512 =
        (st', { stats0 with erase_count := (stats0.erase_count + 1) % U32 },
          some (Except.ok ())) ∧
      ∀ b, st'.disk b =
        if 1 ≤ b ∧ b < 1 + 512 / info0.erase_size then none else stAB.disk b :=
  ⟨by decide, by decide, by decide, by decide,
    C5_erase_deletes_walked_blocks info0 stats0 stAB 1 0 512 (by decide)
      (by decide) (by decide) (by decide)⟩

/-! ### Claim C7 -/

theorem fopenRead_none {orc : Oracle} {st : FsState} {blk : Nat} {st1 : FsState}
    (h : fopenRead orc st blk = (st1, none)) :
    st1.opens = st.opens ∧ st1.disk = st.disk := by
  unfold fopenRead at h
  cases ho : orc st.calls with
  | some e =>
    rw [ho] at h
    injection h with h1 h2
    subst h1
    exact ⟨rfl, rfl⟩
  | none =>
    rw [ho] at h
    cases hd : st.disk blk with
    | none =>
      rw [hd] at h
      injection h with h1 h2
      subst h1
      exact ⟨rfl, rfl⟩
    | some a =>
      rw [hd] at h
      injection h with h1 h2
      exact Option.noConfusion h2

theorem fopenRead_some {orc : Oracle} {st : FsState} {blk : Nat} {st1 : FsState}
    {a : List Nat} (h : fopenRead orc st blk = (st1, some a)) :
    st1.opens = st.opens + 1 ∧ st1.disk = st.disk := by
  unfold fopenRead at h
  cases ho : orc st.calls with
  | some e =>
    rw [ho] at h
    injection h with h1 h2
    exact Option.noConfusion h2
  | none =>
    rw [ho] at h
    cases hd : st.disk blk with
    | none =>
      rw [hd] at h
      injection h with h1 h2
      exact Option.noConfusion h2
    | some a' =>
      rw [hd] at h
      injection h with h1 h2
      subst h1
      exact ⟨rfl, rfl⟩

theorem fopenUpdate_none {orc : Oracle} {st : FsState} {blk : Nat} {st1 : FsState}
    (h : fopenUpdate orc st blk = (st1, none)) :
    st1.opens = st.opens ∧ st1.disk = st.disk := by
  unfold fopenUpdate at h
  cases ho : orc st.calls with
  | some e =>
    rw [ho] at h
    injection h with h1 h2
    subst h1
    exact ⟨rfl, rfl⟩
  | none =>
    rw [ho] at h
    cases hd : st.disk blk with
    | none =>
      rw [hd] at h
      injection h with h1 h2
      subst h1
      exact ⟨rfl, rfl⟩
    | some a =>
      rw [hd] at h
      injection h with h1 h2
      exact Option.noConfusion h2

theorem fopenUpdate_some {orc : Oracle} {st : FsState} {blk : Nat} {st1 : FsState}
    {a : List Nat} (h : fopenUpdate orc st blk = (st1, some a)) :
    st1.opens = st.opens + 1 := by
  unfold fopenUpdate at h
  cases ho : orc st.calls with
  | some e =>
    rw [ho] at h
    injection h with h1 h2
    exact Option.noConfusion h2
  | none =>
    rw [ho] at h
    cases hd : st.disk blk with
    | none =>
      rw [hd] at h
      injection h with h1 h2
      exact Option.noConfusion h2
    | some a' =>
      rw [hd] at h
      injection h with h1 h2
      subst h1
      rfl

theorem fopenCreate_some {orc : Oracle} {st : FsState} {blk : Nat} {st1 : FsState}
    {a : List Nat} (h : fopenCreate orc st blk = (st1, some a)) :
    st1.opens = st.opens + 1 := by
  unfold fopenCreate at h
  cases ho : orc st.calls with
  | some e =>
    rw [ho] at h
    injection h with h1 h2
    exact Option.noConfusion h2
  | none =>
    rw [ho] at h
    injection h with h1 h2
    subst h1
    rfl

theorem fseekCall_pair {orc : Oracle} {st st2 : FsState} {b : Bool}
    (h : fseekCall orc st = (st2, b)) :
    st2.opens = st.opens ∧ st2.disk = st.disk := by
  unfold fseekCall at h
  cases ho : orc st.calls with
  | some e => rw [ho] at h; injection h with h1 h2; subst h1; exact ⟨rfl, rfl⟩
  | none => rw [ho] at h; injection h with h1 h2; subst h1; exact ⟨rfl, rfl⟩

theorem freadCall_pair {orc : Oracle} {st st2 : FsState} {b : Bool}
    (h : freadCall orc st = (st2, b)) :
    st2.opens = st.opens ∧ st2.disk = st.disk := by
  unfold freadCall at h
  cases ho : orc st.calls with
  | some e => rw [ho] at h; injection h with h1 h2; subst h1; exact ⟨rfl, rfl⟩
  | none => rw [ho] at h; injection h with h1 h2; subst h1; exact ⟨rfl, rfl⟩

theorem fwriteCall_pair {orc : Oracle} {st : FsState} {blk : Nat} {c : List Nat}
    {st2 : FsState} {b : Bool} (h : fwriteCall orc st blk c = (st2, b)) :
    st2.opens = st.opens := by
  unfold fwriteCall at h
  cases ho : orc st.calls with
  | some e => rw [ho] at h; injection h with h1 h2; subst h1; rfl
  | none => rw [ho] at h; injection h with h1 h2; subst h1; rfl

theorem fcloseCall_pair {orc : Oracle} {st st2 : FsState} {b : Bool}
    (h : fcloseCall orc st = (st2, b)) :
    st2.opens = st.opens - 1 := by
  unfold fcloseCall at h
  cases ho : orc st.calls with
  | some e => rw [ho] at h; injection h with h1 h2; subst h1; rfl
  | none => rw [ho] at h; injection h with h1 h2; subst h1; rfl

theorem progOpen_opened {orc : Oracle} {st : FsState} {blk : Nat} {st1 : FsState}
    {a : List Nat} (h : progOpen orc st blk = (st1, OpenRes.opened a)) :
    st1.opens = st.opens + 1 := by
  unfold progOpen at h
  split at h
  next stu a' heq =>
    injection h with h1 h2
    subst h1
    exact fopenUpdate_some heq
  next stu heq =>
    by_cases he : stu.errno = ENOENT
    · rw [if_pos he] at h
      split at h
      next stc heq2 =>
        injection h with h1 h2
        exact OpenRes.noConfusion h2
      next stc a' heq2 =>
        injection h with h1 h2
        subst h1
        rw [fopenCreate_some heq2, (fopenUpdate_none heq).1]
    · rw [if_neg he] at h
      injection h with h1 h2
      exact OpenRes.noConfusion h2

/-- Every successful run of the read walk leaves the number of open handles
unchanged: each opened handle is matched by a close. -/
theorem readLoop_ok_opens (orc : Oracle) (info : BdInfo) :
    ∀ fuel st block off size acc st' out,
      readLoop orc info fuel st block off size acc = (st', some (Except.ok out)) →
      st'.opens = st.opens := by
  intro fuel
  induction fuel with
  | zero => intro st block off size acc st' out h; simp [readLoop] at h
  | succ fuel ih =>
    intro st block off size acc st' out h
    simp only [readLoop] at h
    by_cases hz : size = 0
    · rw [if_pos hz] at h
      injection h with h1 h2
      subst h1
      rfl
    · rw [if_neg hz] at h
      split at h
      next st1 heq =>
        by_cases he : st1.errno = ENOENT
        · rw [if_pos he] at h
          rw [ih _ _ _ _ _ _ _ h, (fopenRead_none heq).1]
        · rw [if_neg he] at h
          simp at h
      next st1 a heq =>
        split at h
        next st2 heq2 => simp at h
        next st2 heq2 =>
          split at h
          next st3 heq3 => simp at h
          next st3 heq3 =>
            split at h
            next st4 heq4 => simp at h
            next st4 heq4 =>
              have h4 := fcloseCall_pair heq4
              have h3 := (freadCall_pair heq3).1
              have h2 := (fseekCall_pair heq2).1
              have h1 := (fopenRead_some heq).1
              rw [ih _ _ _ _ _ _ _ h]
              omega

/-- Every successful run of the program walk leaves the number of open
handles unchanged. -/
theorem progLoop_ok_opens (orc : Oracle) (info : BdInfo) :
    ∀ fuel st block off size data st' u,
      progLoop orc info fuel st block off size data = (st', some (Except.ok u)) →
      st'.opens = st.opens := by
  intro fuel
  induction fuel with
  | zero => intro st block off size data st' u h; simp [progLoop] at h
  | succ fuel ih =>
    intro st block off size data st' u h
    simp only [progLoop] at h
    by_cases hz : size = 0
    · rw [if_pos hz] at h
      injection h with h1 h2
      subst h1
      rfl
    · rw [if_neg hz] at h
      split at h
      next st1 heq => simp at h
      next st1 e heq => simp at h
      next st1 a heq =>
        split at h
        next st2 heq2 => simp at h
        next st2 heq2 =>
          split at h
          next st3 heq3 => simp at h
          next st3 heq3 =>
            split at h
            next st4 heq4 => simp at h
            next st4 heq4 =>
              have h4 := fcloseCall_pair heq4
              have h3 := fwriteCall_pair heq3
              have h2 := (fseekCall_pair heq2).1
              have h1 := progOpen_opened heq
              rw [ih _ _ _ _ _ _ _ h]
              omega

/-- C7 counterexample: on the two-artifact store, a valid `read(0, 0, 16)`
whose second file-store primitive call (the `fseek` after a successful
`fopen`) fails returns the error to the caller with the opened handle still
open (`opens` goes from 0 to 1): the mid-walk error path does not close the
handle, contradicting the claim that every exit path closes all opened
handles. -/
theorem C7_claim_counterexample :
    stAB.opens = 0 ∧
    (lfs_emubd_read orcSeekFault info0 stats0 stAB 0 0 16).2.2 =
      some (Except.error 5) ∧
    (lfs_emubd_read orcSeekFault info0 stats0 stAB 0 0 16).1.opens = 1 :=
  ⟨rfl, rfl, rfl⟩

/-- C7 (amended): on every *successful* exit of read or program (and on
invalid-argument rejection, where no handle is ever opened), every
file-store handle opened during the multi-block walk has been closed when
the operation returns; an `fseek`/`fread`/`fwrite` failure mid-walk, however,
returns with the current block's handle still open (see the
counterexample). -/
theorem C7_success_closes_all_handles (orc : Oracle) (info : BdInfo)
    (stats : BdStats) (st : FsState) (block off size : Nat) (data : List Nat) :
    (∀ st' stats' out,
      lfs_emubd_read orc info stats st block off size =
        (st', stats', some (Except.ok out)) → st'.opens = st.opens) ∧
    (∀ st' stats' u,
      lfs_emubd_prog orc info stats st block off size data =
        (st', stats', some (Except.ok u)) → st'.opens = st.opens) := by
  constructor
  · intro st' stats' out h
    unfold lfs_emubd_read at h
    by_cases hv : readValid info block off size
    · rw [if_pos hv] at h
      rcases hl : readLoop orc info (size + 2) st block off size [] with ⟨stL, r⟩
      rw [hl] at h
      rcases r with _ | r
      · simp at h
      · rcases r with e | o
        · simp at h
        · simp only [Prod.mk.injEq] at h
          obtain ⟨h1, -, -⟩ := h
          subst h1
          exact readLoop_ok_opens orc info _ _ _ _ _ _ _ _ hl
    · rw [if_neg hv] at h
      simp only [Prod.mk.injEq] at h
      obtain ⟨h1, -, -⟩ := h
      subst h1
      rfl
  · intro st' stats' u h
    unfold lfs_emubd_prog at h
    by_cases hv : progValid info block off size
    · rw [if_pos hv] at h
      rcases hl : progLoop orc info (size + 2) st block off size data with ⟨stL, r⟩
      rw [hl] at h
      rcases r with _ | r
      · simp at h
      · rcases r with e | u'
        · simp at h
        · simp only [Prod.mk.injEq] at h
          obtain ⟨h1, -, -⟩ := h
          subst h1
          exact progLoop_ok_opens orc info _ _ _ _ _ _ _ _ hl
    · rw [if_neg hv] at h
      simp only [Prod.mk.injEq] at h
      obtain ⟨h1, -, -⟩ := h
      subst h1
      rfl

/-- Witness for C7 (amended): a successful fault-free read of block 0 leaves
`opens` unchanged. -/
theorem C7_success_closes_all_handles_witness :
    (lfs_emubd_read noFault info0 stats0 stAB 0 0 16).1.opens = stAB.opens :=
  (C7_success_closes_all_handles noFault info0 stats0 stAB 0 0 16 []).1
    (lfs_emubd_read noFault info0 stats0 stAB 0 0 16).1
    (lfs_emubd_read noFault info0 stats0 stAB 0 0 16).2.1
    [1, 0, 0, 0, 0, 0, 0, 0, 0, 0, 0, 0, 0, 0, 0, 0]
    rfl

/-! ### Claim C9 -/

/-- C9 (code bug): a valid `prog(0, 0, 16)` on a store where block 0's
artifact exists, with the `fopen(path, "r+b")` failing with `errno = 13`
(`EACCES`, not `ENOENT`), does *not* return an error code: the C code only
handles `!f && errno == ENOENT` and otherwise falls through to
`fseek(f, off, SEEK_SET)` with `f == NULL` — undefined behaviour (modelled as
result `none`) — instead of the IOError the spec promises (which the read
path's `if (!f && errno != ENOENT) return -errno;` does implement).  The
stats are also shown unbumped for this non-successful run. -/
theorem C9_prog_open_failure_undefined_behaviour :
    (lfs_emubd_prog orcOpenFault info0 stats0 stAB 0 0 16
        (List.replicate 16 7)).2.2 = none ∧
    (lfs_emubd_prog orcOpenFault info0 stats0 stAB 0 0 16
        (List.replicate 16 7)).2.1 = stats0 ∧
    progValid info0 0 0 16 := by
  refine ⟨rfl, rfl, by decide⟩

/-! ### Claim C8 -/

/-- C8: creating a device over a base directory whose `"stats"` child is
absent fails with `ENOENT`; one whose `"stats"` child is shorter than the
`UsageStatistics` record fails with a nonzero error (the `fread` returns 0
items and `-errno` is returned, `errno` still holding `EEXIST` from the
`mkdir` of the already-existing directory); and when the artifact is at
least record-sized, creation succeeds and the persisted counters are decoded
into the handle.  The well-formedness hypothesis says a `"stats"` child can
only exist if the base directory does. -/
theorem C8_create_stats_hard_error (cfg : BdInfo) (dirExists : Bool)
    (statsFile : Option (List Nat)) (e0 : Nat)
    (hwf : ∀ bs, statsFile = some bs → dirExists = true) :
    (statsFile = none →
      lfs_emubd_create cfg dirExists statsFile e0 = Except.error ENOENT) ∧
    (∀ bs, statsFile = some bs → bs.length < statsSize →
      lfs_emubd_create cfg dirExists statsFile e0 = Except.error EEXIST) ∧
    (∀ bs, statsFile = some bs → statsSize ≤ bs.length →
      lfs_emubd_create cfg dirExists statsFile e0 =
        Except.ok (cfg, decodeStats bs)) := by
  refine ⟨?_, ?_, ?_⟩
  · intro h
    subst h
    rfl
  · intro bs hbs hshort
    subst hbs
    have hd : dirExists = true := hwf bs rfl
    subst hd
    simp [lfs_emubd_create, Nat.not_le_of_lt hshort, EEXIST]
  · intro bs hbs hlong
    subst hbs
    simp [lfs_emubd_create, hlong]

/-- Witness for C8: on an existing base directory, a 2-byte `"stats"`
artifact makes creation fail with `EEXIST`, and a full 12-byte artifact
(counters 3, 4, 5 in little-endian) loads the persisted counters. -/
theorem C8_create_stats_hard_error_witness :
    (∀ bs : List Nat, (some [1, 2] : Option (List Nat)) = some bs → true = true) ∧
    lfs_emubd_create info0 true (some [1, 2]) 0 = Except.error EEXIST ∧
    lfs_emubd_create info0 true
        (some [3, 0, 0, 0, 4, 0, 0, 0, 5, 0, 0, 0]) 0 =
      Except.ok (info0, ⟨3, 4, 5⟩) :=
  ⟨fun _ _ => rfl,
    (C8_create_stats_hard_error info0 true (some [1, 2]) 0
      (fun _ _ => rfl)).2.1 [1, 2] rfl (by decide),
    by
      have h := (C8_create_stats_hard_error info0 true
        (some [3, 0, 0, 0, 4, 0, 0, 0, 5, 0, 0, 0]) 0 (fun _ _ => rfl)).2.2
        [3, 0, 0, 0, 4, 0, 0, 0, 5, 0, 0, 0] rfl (by decide)
      rw [h]
      rfl⟩

/-! ### Claim C3 -/

/-- Splitting the first block off the pointwise read specification. -/
theorem readGold_step (disk : Nat → Option (List Nat)) (es block off size : Nat)
    (hes : 0 < es) (hoff : off < es) (hz : size ≠ 0) :
    readGold disk es block off size =
      readSlice ((disk block).getD []) off (min (es - off) size) ++
        readGold disk es (block + 1) 0 (size - min (es - off) size) := by
  apply List.ext_getElem
  · simp [readGold]
    try omega
  · intro i h1 h2
    have hi : i < size := by simpa [readGold] using h1
    by_cases hic : i < min (es - off) size
    · rw [List.getElem_append_left (by simpa using hic)]
      simp only [readGold, readSlice, List.getElem_map, List.getElem_range]
      have hlt : off + i < es := by omega
      simp [Nat.div_eq_of_lt hlt, Nat.mod_eq_of_lt hlt]
    · have hcnt : min (es - off) size = es - off := by omega
      rw [List.getElem_append_right (by simp only [length_readSlice]; omega)]
      simp only [length_readSlice, readGold, List.getElem_map, List.getElem_range,
        Nat.zero_add]
      rw [hcnt]
      have e0 : off + i = (i - (es - off)) + es := by omega
      rw [e0, Nat.add_div_right _ hes, Nat.add_mod_right]
      have e3 : block + ((i - (es - off)) / es + 1) =
          block + 1 + (i - (es - off)) / es := by
        generalize (i - (es - off)) / es = q
        omega
      rw [e3]

/-- Characterisation of the fault-free read walk for `off < erase_size`: it
returns success with exactly the `readGold` bytes appended to the prefilled
prefix, and never changes the file store. -/
theorem readLoop_noFault_char (info : BdInfo) (hes : 0 < info.erase_size)
    (hesU : info.erase_size < U32) :
    ∀ fuel st block off size acc, off < info.erase_size → size < fuel →
      ∃ st', readLoop noFault info fuel st block off size acc =
          (st', some (Except.ok
            (acc ++ readGold st.disk info.erase_size block off size))) ∧
        st'.disk = st.disk := by
  intro fuel
  induction fuel with
  | zero => intro st block off size acc _ h; exact absurd h (Nat.not_lt_zero _)
  | succ fuel ih =>
    intro st block off size acc hoff hfuel
    by_cases hz : size = 0
    · subst hz
      exact ⟨st, by simp [readLoop, readGold], rfl⟩
    · have hs32 : sub32 info.erase_size off = info.erase_size - off :=
        sub32_of_le (le_of_lt hoff) hesU
      have hcpos : 1 ≤ min (info.erase_size - off) size := by omega
      have hgold := readGold_step st.disk info.erase_size block off size hes hoff hz
      cases hb : st.disk block with
      | none =>
        obtain ⟨st', hloop, hdisk⟩ :=
          ih ⟨st.disk, st.opens, st.calls + 1, ENOENT⟩ (block + 1) 0
            (size - min (info.erase_size - off) size)
            (acc ++ List.replicate (min (info.erase_size - off) size) 0)
            hes (by omega)
        have hstep : readLoop noFault info (fuel + 1) st block off size acc =
            readLoop noFault info fuel ⟨st.disk, st.opens, st.calls + 1, ENOENT⟩
              (block + 1) 0 (size - min (info.erase_size - off) size)
              (acc ++ List.replicate (min (info.erase_size - off) size) 0) := by
          simp [readLoop, hz, fopenRead_noFault_none hb, hs32]
        refine ⟨st', ?_, hdisk⟩
        rw [hstep, hloop, hgold, hb]
        simp [readSlice_nil, List.append_assoc]
      | some a =>
        obtain ⟨st', hloop, hdisk⟩ :=
          ih ⟨st.disk, st.opens, st.calls + 4, st.errno⟩ (block + 1) 0
            (size - min (info.erase_size - off) size)
            (acc ++ readSlice a off (min (info.erase_size - off) size))
            hes (by omega)
        have hstep : readLoop noFault info (fuel + 1) st block off size acc =
            readLoop noFault info fuel ⟨st.disk, st.opens, st.calls + 4, st.errno⟩
              (block + 1) 0 (size - min (info.erase_size - off) size)
              (acc ++ readSlice a off (min (info.erase_size - off) size)) := by
          simp [readLoop, hz, fopenRead_noFault_some hb, fseekCall_noFault,
            freadCall_noFault, fcloseCall_noFault, hs32]
        refine ⟨st', ?_, hdisk⟩
        rw [hstep, hloop, hgold, hb]
        simp [List.append_assoc]

/-- C3: a valid fault-free read with `off < erase_size` always succeeds —
absent or short artifacts are not errors — returning `size` bytes, and every
byte whose backing artifact is absent or does not extend to the byte's
in-block position is 0. -/
theorem C3_read_absent_or_short_gives_zeros (info : BdInfo) (stats : BdStats)
    (st : FsState) (block off size : Nat) (hes : 0 < info.erase_size)
    (hesU : info.erase_size < U32) (hoff : off < info.erase_size)
    (hv : readValid info block off size) :
    ∃ out, (lfs_emubd_read noFault info stats st block off size).2.2 =
        some (Except.ok out) ∧ out.length = size ∧
      ∀ i, i < size →
        (∀ a, st.disk (block + (off + i) / info.erase_size) = some a →
          a.length ≤ (off + i) % info.erase_size) →
        out.getD i 1 = 0 := by
  obtain ⟨st', hloop, -⟩ :=
    readLoop_noFault_char info hes hesU (size + 2) st block off size [] hoff
      (by omega)
  refine ⟨readGold st.disk info.erase_size block off size, ?_,
    by simp [readGold], ?_⟩
  · simp [lfs_emubd_read, hv, hloop]
  · intro i hi hcov
    have hval : (readGold st.disk info.erase_size block off size).getD i 1 =
        ((st.disk (block + (off + i) / info.erase_size)).getD []).getD
          ((off + i) % info.erase_size) 0 := by
      rw [List.getD_eq_getElem _ _ (by simpa [readGold] using hi)]
      simp [readGold]
    rw [hval]
    cases hb : st.disk (block + (off + i) / info.erase_size) with
    | none => simp
    | some a =>
      simp only [Option.getD_some]
      exact List.getD_eq_default _ _ (hcov a hb)

/-- Witness for C3: reading 32 bytes from block 0 of the store whose block-0
artifact is the single byte `[1]` and block-1 artifact `[2]`: the read
succeeds and bytes 1…31 (not covered by the 1-byte artifact) are 0. -/
theorem C3_read_absent_or_short_gives_zeros_witness :
    0 < info0.erase_size ∧ info0.erase_size < U32 ∧ 0 < info0.erase_size ∧
    readValid info0 0 0 32 ∧
    ∃ out, (lfs_emubd_read noFault info0 stats0 stAB 0 0 32).2.2 =
        some (Except.ok out) ∧ out.length = 32 ∧
      ∀ i, i < 32 →
        (∀ a, stAB.disk (0 + (0 + i) / info0.erase_size) = some a →
          a.length ≤ (0 + i) % info0.erase_size) →
        out.getD i 1 = 0 :=
  ⟨by decide, by decide, by decide, by decide,
    C3_read_absent_or_short_gives_zeros info0 stats0 stAB 0 0 32 (by decide)
      (by decide) (by decide) (by decide)⟩

/-! ### Claim C1 -/

/-- One iteration of the fault-free program walk: whatever the state of block
`block`'s artifact (opened for update if present, created if absent), its new
contents are the old contents (`[]` if absent) overwritten at `off` with the
first `count` data bytes, and the walk continues at `(block+1, 0)` with the
rest. -/
theorem progLoop_noFault_step (info : BdInfo) (fuel : Nat) (st : FsState)
    (block off size : Nat) (data : List Nat) (hf : fuel ≠ 0) (hz : size ≠ 0) :
    ∃ stW, progLoop noFault info fuel st block off size data =
        progLoop noFault info (fuel - 1) stW (block + 1) 0
          (size - min (sub32 info.erase_size off) size)
          (data.drop (min (sub32 info.erase_size off) size)) ∧
      stW.disk = updateDisk st.disk block
        (some (writeAt ((st.disk block).getD []) off
          (data.take (min (sub32 info.erase_size off) size)))) := by
  obtain ⟨f, rfl⟩ : ∃ f, fuel = f + 1 := ⟨fuel - 1, by omega⟩
  cases hb : st.disk block with
  | some a =>
    refine ⟨⟨updateDisk st.disk block
        (some (writeAt a off (data.take (min (sub32 info.erase_size off) size)))),
      st.opens, st.calls + 4, st.errno⟩, ?_, ?_⟩
    · simp [progLoop, hz, progOpen_noFault_some hb, fseekCall_noFault,
        fwriteCall_noFault, fcloseCall_noFault]
    · simp [hb]
  | none =>
    refine ⟨⟨updateDisk (updateDisk st.disk block (some [])) block
        (some (writeAt [] off (data.take (min (sub32 info.erase_size off) size)))),
      st.opens, st.calls + 5, ENOENT⟩, ?_, ?_⟩
    · simp [progLoop, hz, progOpen_noFault_none hb, fseekCall_noFault,
        fwriteCall_noFault, fcloseCall_noFault]
    · funext b
      by_cases hbb : b = block
      · subst hbb; simp [updateDisk]
      · simp [updateDisk, hbb]

/-- One iteration of the fault-free read walk over a block whose artifact is
`a`. -/
theorem readLoop_noFault_step (info : BdInfo) (fuel : Nat) (str : FsState)
    (block off size : Nat) (acc a : List Nat) (hf : fuel ≠ 0) (hz : size ≠ 0)
    (hb : str.disk block = some a) :
    readLoop noFault info fuel str block off size acc =
      readLoop noFault info (fuel - 1)
        ⟨str.disk, str.opens, str.calls + 4, str.errno⟩ (block + 1) 0
        (size - min (sub32 info.erase_size off) size)
        (acc ++ readSlice a off (min (sub32 info.erase_size off) size)) := by
  obtain ⟨f, rfl⟩ : ∃ f, fuel = f + 1 := ⟨fuel - 1, by omega⟩
  simp [readLoop, hz, fopenRead_noFault_some hb, fseekCall_noFault,
    freadCall_noFault, fcloseCall_noFault]

/-- Simultaneous characterisation of the fault-free program walk starting at
in-block offset 0 and the subsequent read walk of the same range: the program
walk succeeds, touches no block below its starting index, and a read walk of
the same `(block, 0, size)` range over the resulting file store returns
exactly the programmed bytes. -/
theorem progLoop_readLoop_noFault_zero (info : BdInfo) (hes : 0 < info.erase_size)
    (hesU : info.erase_size < U32) :
    ∀ fuel st block size data, data.length = size → size < fuel →
      ∃ st1, progLoop noFault info fuel st block 0 size data =
          (st1, some (Except.ok ())) ∧
        (∀ b, b < block → st1.disk b = st.disk b) ∧
        ∀ fuel2 str acc, size < fuel2 → str.disk = st1.disk →
          ∃ st2, readLoop noFault info fuel2 str block 0 size acc =
            (st2, some (Except.ok (acc ++ data))) := by
  intro fuel
  induction fuel with
  | zero => intro st block size data _ h; exact absurd h (Nat.not_lt_zero _)
  | succ fuel ih =>
    intro st block size data hlen hfuel
    by_cases hz : size = 0
    · subst hz
      have hd : data = [] := List.eq_nil_of_length_eq_zero hlen
      subst hd
      refine ⟨st, by simp [progLoop], fun b _ => rfl, ?_⟩
      intro fuel2 str acc hf2 _
      obtain ⟨f2, rfl⟩ : ∃ f2, fuel2 = f2 + 1 := ⟨fuel2 - 1, by omega⟩
      exact ⟨str, by simp [readLoop]⟩
    · have hsub0 : sub32 info.erase_size 0 = info.erase_size := sub32_zero hesU
      have hc1 : 1 ≤ min info.erase_size size := by omega
      have hcle : min info.erase_size size ≤ size := Nat.min_le_right _ _
      obtain ⟨stW, hstep, hdiskW⟩ :=
        progLoop_noFault_step info (fuel + 1) st block 0 size data (by omega) hz
      rw [hsub0] at hstep hdiskW
      rw [Nat.add_sub_cancel] at hstep
      obtain ⟨st1, hploop, hframe, hread⟩ :=
        ih stW (block + 1) (size - min info.erase_size size)
          (data.drop (min info.erase_size size)) (by simp [hlen]) (by omega)
      refine ⟨st1, by rw [hstep, hploop], ?_, ?_⟩
      · intro b hb
        rw [hframe b (by omega), hdiskW]
        exact updateDisk_other _ _ _ _ (by omega)
      · intro fuel2 str acc hf2 hdisk
        have hstrb : str.disk block = some (writeAt ((st.disk block).getD []) 0
            (data.take (min info.erase_size size))) := by
          rw [hdisk, hframe block (by omega), hdiskW]
          exact updateDisk_same _ _ _
        have hrstep := readLoop_noFault_step info fuel2 str block 0 size acc _
          (by omega) hz hstrb
        rw [hsub0] at hrstep
        have hrs : readSlice (writeAt ((st.disk block).getD []) 0
            (data.take (min info.erase_size size))) 0 (min info.erase_size size) =
            data.take (min info.erase_size size) := by
          have h := readSlice_writeAt ((st.disk block).getD []) 0
            (data.take (min info.erase_size size))
          rwa [List.length_take, hlen, Nat.min_eq_left hcle] at h
        rw [hrs] at hrstep
        obtain ⟨st2, hrloop⟩ := hread (fuel2 - 1)
          ⟨str.disk, str.opens, str.calls + 4, str.errno⟩
          (acc ++ data.take (min info.erase_size size)) (by omega) hdisk
        refine ⟨st2, ?_⟩
        rw [hrstep, hrloop]
        simp [List.append_assoc, List.take_append_drop]

/-- C1: for every triple passing both the program and the read validity
checks, a fault-free `program(block, off, size, data)` followed by a
fault-free `read(block, off, size)` of the same range — with no intervening
erase — succeeds on both operations and reads back exactly `data`, including
when the range spans several erase blocks (and even in the degenerate
in-bounds cases `off = erase_size`, where the walk skips one block, and
`off > erase_size`, where the 32-bit wrap of `erase_size - off` makes a
single deep write into the first block that the identical read walk then
retrieves). -/
theorem C1_read_after_prog_returns_data (info : BdInfo) (statsP statsR : BdStats)
    (st : FsState) (block off size : Nat) (data : List Nat)
    (hes : 0 < info.erase_size) (hesU : info.erase_size < U32)
    (htot : info.total_size ≤ U32) (hvP : progValid info block off size)
    (hvR : readValid info block off size) (hlen : data.length = size) :
    (lfs_emubd_prog noFault info statsP st block off size data).2.2 =
      some (Except.ok ()) ∧
    (lfs_emubd_read noFault info statsR
        (lfs_emubd_prog noFault info statsP st block off size data).1
        block off size).2.2 = some (Except.ok data) := by
  have hb2 : block * info.erase_size + off + size < info.total_size := hvP.2.2
  have h1 : off + size ≤ block * info.erase_size + off + size := by
    rw [Nat.add_assoc]; exact Nat.le_add_left _ _
  have hos : off + size < U32 := by omega
  by_cases hz : size = 0
  · subst hz
    have hd : data = [] := List.eq_nil_of_length_eq_zero hlen
    subst hd
    constructor <;>
      simp [lfs_emubd_prog, lfs_emubd_read, hvP, hvR, progLoop, readLoop]
  · obtain ⟨stW, hstep, hdiskW⟩ :=
      progLoop_noFault_step info (size + 2) st block off size data (by omega) hz
    rcases lt_trichotomy off info.erase_size with hoff | hoff | hoff
    · -- off < erase_size: the ordinary multi-block walk
      have hs32 : sub32 info.erase_size off = info.erase_size - off :=
        sub32_of_le (le_of_lt hoff) hesU
      rw [hs32] at hstep hdiskW
      have hc1 : 1 ≤ min (info.erase_size - off) size := by omega
      have hcle : min (info.erase_size - off) size ≤ size := Nat.min_le_right _ _
      obtain ⟨st1, hploop, hframe, hread⟩ :=
        progLoop_readLoop_noFault_zero info hes hesU (size + 1) stW (block + 1)
          (size - min (info.erase_size - off) size)
          (data.drop (min (info.erase_size - off) size)) (by simp [hlen])
          (by omega)
      have hp : lfs_emubd_prog noFault info statsP st block off size data =
          (st1, { statsP with prog_count := (statsP.prog_count + 1) % U32 },
            some (Except.ok ())) := by
        simp [lfs_emubd_prog, hvP, hstep, hploop]
      rw [hp]
      refine ⟨rfl, ?_⟩
      have hstrb : st1.disk block = some (writeAt ((st.disk block).getD []) off
          (data.take (min (info.erase_size - off) size))) := by
        rw [hframe block (by omega), hdiskW]
        exact updateDisk_same _ _ _
      have hrstep := readLoop_noFault_step info (size + 2) st1 block off size [] _
        (by omega) hz hstrb
      rw [hs32] at hrstep
      have hrs : readSlice (writeAt ((st.disk block).getD []) off
          (data.take (min (info.erase_size - off) size))) off
          (min (info.erase_size - off) size) =
          data.take (min (info.erase_size - off) size) := by
        have h := readSlice_writeAt ((st.disk block).getD []) off
          (data.take (min (info.erase_size - off) size))
        rwa [List.length_take, hlen, Nat.min_eq_left hcle] at h
      rw [hrs, List.nil_append] at hrstep
      obtain ⟨st2, hrloop⟩ := hread (size + 1)
        ⟨st1.disk, st1.opens, st1.calls + 4, st1.errno⟩
        (data.take (min (info.erase_size - off) size)) (by omega) rfl
      simp [lfs_emubd_read, hvR, hrstep, hrloop, List.take_append_drop]
    · -- off = erase_size: the first iteration is a no-op on block `block`
      have hs32 : sub32 info.erase_size off = 0 := by
        rw [hoff]; exact sub32_self hesU
      rw [hs32] at hstep hdiskW
      simp only [Nat.zero_min, List.take_zero, List.drop_zero, Nat.sub_zero,
        writeAt_nil] at hstep hdiskW
      obtain ⟨st1, hploop, hframe, hread⟩ :=
        progLoop_readLoop_noFault_zero info hes hesU (size + 1) stW (block + 1)
          size data hlen (by omega)
      have hp : lfs_emubd_prog noFault info statsP st block off size data =
          (st1, { statsP with prog_count := (statsP.prog_count + 1) % U32 },
            some (Except.ok ())) := by
        simp [lfs_emubd_prog, hvP, hstep, hploop]
      rw [hp]
      refine ⟨rfl, ?_⟩
      have hstrb : st1.disk block = some ((st.disk block).getD []) := by
        rw [hframe block (by omega), hdiskW]
        exact updateDisk_same _ _ _
      have hrstep := readLoop_noFault_step info (size + 2) st1 block off size [] _
        (by omega) hz hstrb
      rw [hs32] at hrstep
      simp only [Nat.zero_min, Nat.sub_zero, readSlice_zero,
        List.append_nil] at hrstep
      obtain ⟨st2, hrloop⟩ := hread (size + 1)
        ⟨st1.disk, st1.opens, st1.calls + 4, st1.errno⟩ [] (by omega) rfl
      simp [lfs_emubd_read, hvR, hrstep, hrloop]
    · -- erase_size < off: 32-bit wrap makes count = size (single deep write)
      have hoffU : off < U32 := by omega
      have hs32 : sub32 info.erase_size off = U32 - (off - info.erase_size) :=
        sub32_of_lt hoff hoffU
      have hcnt : min (U32 - (off - info.erase_size)) size = size :=
        Nat.min_eq_right (by omega)
      rw [hs32, hcnt] at hstep hdiskW
      have hdt : data.take size = data := by
        rw [← hlen]; exact List.take_length data
      have hdd : data.drop size = [] := by
        rw [← hlen]; exact List.drop_length data
      rw [Nat.sub_self, hdd] at hstep
      rw [hdt] at hdiskW
      obtain ⟨st1, hploop, hframe, hread⟩ :=
        progLoop_readLoop_noFault_zero info hes hesU (size + 1) stW (block + 1)
          0 [] rfl (by omega)
      have hp : lfs_emubd_prog noFault info statsP st block off size data =
          (st1, { statsP with prog_count := (statsP.prog_count + 1) % U32 },
            some (Except.ok ())) := by
        simp [lfs_emubd_prog, hvP, hstep, hploop]
      rw [hp]
      refine ⟨rfl, ?_⟩
      have hstrb : st1.disk block =
          some (writeAt ((st.disk block).getD []) off data) := by
        rw [hframe block (by omega), hdiskW]
        exact updateDisk_same _ _ _
      have hrstep := readLoop_noFault_step info (size + 2) st1 block off size [] _
        (by omega) hz hstrb
      rw [hs32, hcnt, Nat.sub_self] at hrstep
      have hrs : readSlice (writeAt ((st.disk block).getD []) off data) off size =
          data := by
        have h := readSlice_writeAt ((st.disk block).getD []) off data
        rwa [hlen] at h
      rw [hrs, List.nil_append] at hrstep
      obtain ⟨st2, hrloop⟩ := hread (size + 1)
        ⟨st1.disk, st1.opens, st1.calls + 4, st1.errno⟩ data (by omega) rfl
      simp [lfs_emubd_read, hvR, hrstep, hrloop]

/-- Witness for C1: programming 32 bytes of `170` at `(block 0, off 496)` of
the empty store — a range spanning blocks 0 and 1 — and reading the same
range returns the 32 programmed bytes. -/
theorem C1_read_after_prog_returns_data_witness :
    0 < info0.erase_size ∧ info0.erase_size < U32 ∧ info0.total_size ≤ U32 ∧
    progValid info0 0 496 32 ∧ readValid info0 0 496 32 ∧
    (List.replicate 32 170).length = 32 ∧
    ((lfs_emubd_prog noFault info0 stats0 st0 0 496 32
        (List.replicate 32 170)).2.2 = some (Except.ok ()) ∧
      (lfs_emubd_read noFault info0 stats0
          (lfs_emubd_prog noFault info0 stats0 st0 0 496 32
            (List.replicate 32 170)).1 0 496 32).2.2 =
        some (Except.ok (List.replicate 32 170))) :=
  ⟨by decide, by decide, by decide, by decide, by decide, by decide,
    C1_read_after_prog_returns_data info0 stats0 stats0 st0 0 496 32
      (List.replicate 32 170) (by decide) (by decide) (by decide) (by decide)
      (by decide) (by decide)⟩

/-! ### Claim C6 -/

/-- C6: a valid fault-free program of a sub-range `[off, off+size)` of a
single block whose artifact `a` already exists succeeds, opens the artifact
for in-place update (not truncation), and every byte of the block outside
the programmed sub-range keeps its previous value: the new artifact `a'`
agrees with `a` at every index `j < a.length` with `j < off` or
`off + size ≤ j`. -/
theorem C6_prog_subrange_preserves_rest (info : BdInfo) (stats : BdStats)
    (st : FsState) (block off size : Nat) (data a : List Nat)
    (hes : 0 < info.erase_size) (hesU : info.erase_size < U32)
    (hv : progValid info block off size) (hlen : data.length = size)
    (hin : off + size ≤ info.erase_size) (hex : st.disk block = some a) :
    ∃ a', (lfs_emubd_prog noFault info stats st block off size data).1.disk block
        = some a' ∧
      (lfs_emubd_prog noFault info stats st block off size data).2.2 =
        some (Except.ok ()) ∧
      ∀ j, j < a.length → (j < off ∨ off + size ≤ j) →
        a'.getD j 0 = a.getD j 0 := by
  by_cases hz : size = 0
  · subst hz
    refine ⟨a, ?_, ?_, fun j _ _ => rfl⟩
    · simp [lfs_emubd_prog, hv, progLoop, hex]
    · simp [lfs_emubd_prog, hv, progLoop]
  · have hoffle : off ≤ info.erase_size := by omega
    have hs32 : sub32 info.erase_size off = info.erase_size - off :=
      sub32_of_le hoffle hesU
    have hcount : min (sub32 info.erase_size off) size = size := by
      rw [hs32]; exact Nat.min_eq_right (by omega)
    have htake : data.take size = data := by
      rw [← hlen]; exact List.take_length data
    refine ⟨writeAt a off data, ?_, ?_, ?_⟩
    · simp [lfs_emubd_prog, hv, progLoop, hz, progOpen_noFault_some hex,
        fseekCall_noFault, fwriteCall_noFault, fcloseCall_noFault, hcount, htake]
    · simp [lfs_emubd_prog, hv, progLoop, hz, progOpen_noFault_some hex,
        fseekCall_noFault, fwriteCall_noFault, fcloseCall_noFault, hcount, htake]
    · intro j hj hout
      rw [← hlen] at hout
      exact getD_writeAt_out a off data j hout

/-- Witness for C6: program bytes 16…31 of block 0 (whose artifact is the
32-byte list `10,…,10`), leaving bytes 0…15 and (vacuously) 32… unchanged. -/
theorem C6_prog_subrange_preserves_rest_witness :
    0 < info0.erase_size ∧ info0.erase_size < U32 ∧ progValid info0 0 16 16 ∧
    (List.replicate 16 7).length = 16 ∧ 16 + 16 ≤ info0.erase_size ∧
    (⟨fun b => if b = 0 then some (List.replicate 32 10) else none, 0, 0, 0⟩ :
        FsState).disk 0 = some (List.replicate 32 10) ∧
    ∃ a', (lfs_emubd_prog noFault info0 stats0
          ⟨fun b => if b = 0 then some (List.replicate 32 10) else none, 0, 0, 0⟩
          0 16 16 (List.replicate 16 7)).1.disk 0 = some a' ∧
      (lfs_emubd_prog noFault info0 stats0
          ⟨fun b => if b = 0 then some (List.replicate 32 10) else none, 0, 0, 0⟩
          0 16 16 (List.replicate 16 7)).2.2 = some (Except.ok ()) ∧
      ∀ j, j < (List.replicate 32 10).length → (j < 16 ∨ 16 + 16 ≤ j) →
        a'.getD j 0 = (List.replicate 32 10).getD j 0 :=
  ⟨by decide, by decide, by decide, by decide, by decide, rfl,
    C6_prog_subrange_preserves_rest info0 stats0
      ⟨fun b => if b = 0 then some (List.replicate 32 10) else none, 0, 0, 0⟩
      0 16 16 (List.replicate 16 7) (List.replicate 32 10) (by decide) (by decide)
      (by decide) (by decide) (by decide) rfl⟩

end LfsEmubd
